import Mathlib

/-!
Verification development for the `ccolectivo` MARC union-catalog builder
(`colectivo_v6_mini.py`).

The Python source is shallowly embedded below.  Conventions:

* Python strings are Lean `String`s; byte-level concerns are out of scope.
* `pymarc` records are modelled by `MRecord` (an ordered list of fields);
  a field is either a control field (tag + data) or a data field
  (tag + two indicator strings + ordered subfield list).
* The external `unidecode` transliterator is modelled by `unidecodeChar`:
  identity on ASCII (the library guarantee) with a small table of common
  accented characters; every unmapped non-ASCII code point transliterates
  to the empty string, matching the library default.  Its essential
  interface property — output is always ASCII — holds for the model.
* The external `rapidfuzz.fuzz.token_sort_ratio` scorer is an opaque
  parameter `sim : String → String → Nat` of the clustering
  configuration; no claim depends on its concrete values.
* The process-global `VALIDATE` flag is threaded explicitly as a
  `validate : Bool` argument (`main` sets it from `--no-checksum`).
* Python truthiness of `Optional[str]` (`None` and `""` are falsy) is
  `truthyOpt`.
-/

namespace List

/-- First `some` value of `f` along the list (the `for … return` idiom of
the Python source). -/
def firstSome {α β : Type} (l : List α) (f : α → Option β) : Option β :=
  match l with
  | [] => none
  | a :: as => match f a with | some b => some b | none => firstSome as f

end List

namespace Colectivo

/-! ### Python string primitives -/

/-- Whitespace characters recognised by Python `str.split()` / `str.strip()`
on ASCII text (the only text those functions see here, since everything has
been transliterated by `unidecode` first). -/
def isPyWs (c : Char) : Bool :=
  c = ' ' || c = '\t' || c = '\n' || c = '\x0d' || c = '\x0b' || c = '\x0c'

/-- Python `str.strip()`. -/
def pyStrip (s : String) : String :=
  (((s.toList.dropWhile isPyWs).reverse.dropWhile isPyWs).reverse).asString

/-- Python `str.lower()` restricted to ASCII input (all inputs here are
`unidecode` output, hence ASCII). -/
def pyLowerChar (c : Char) : Char :=
  if 65 ≤ c.toNat ∧ c.toNat ≤ 90 then Char.ofNat (c.toNat + 32) else c

/-- The punctuation characters of `PUNCT_TABLE`
(`str.maketrans({c: " " for c in ...})` in the source); each is translated
to a space.  (`\x7b`/`\x7d` are the curly braces.) -/
def PUNCT_TABLE : String := ",.;:!?/'\"()[]\x7b\x7d<>-&_=+*#@$%^`~|"

/-- `str.translate(PUNCT_TABLE)` acting on one character. -/
def translateChar (c : Char) : Char :=
  if PUNCT_TABLE.toList.contains c then ' ' else c

/-- Transliteration table used by the `unidecode` model for a few common
non-ASCII characters. -/
def uniTable : List (Char × String) :=
  [('á', "a"), ('é', "e"), ('í', "i"), ('ó', "o"), ('ú', "u"),
   ('à', "a"), ('è', "e"), ('ì', "i"), ('ò', "o"), ('ù', "u"),
   ('ä', "a"), ('ë', "e"), ('ï', "i"), ('ö', "o"), ('ü', "u"),
   ('â', "a"), ('ê', "e"), ('î', "i"), ('ô', "o"), ('û', "u"),
   ('ñ', "n"), ('ç', "c"), ('Á', "A"), ('É', "E"), ('Í', "I"),
   ('Ó', "O"), ('Ú', "U"), ('Ñ', "N"), ('Ü', "U"), ('ß', "ss")]

/-- Model of `unidecode.unidecode` on one character: identity on ASCII,
table lookup otherwise, empty string for unmapped code points.  The output
is always ASCII, which is the library guarantee the proofs rely on. -/
def unidecodeChar (c : Char) : String :=
  if c.toNat ≤ 127 then String.singleton c else ((uniTable.lookup c).getD "")

/-- `unidecode` over a whole string, as the list of output characters. -/
def uniChars (s : String) : List Char :=
  (s.toList.map (fun c => (unidecodeChar c).toList)).flatten

/-- The per-character part of `normalize_text`:
lower-case then punctuation-to-space (the two character-wise stages of
`unidecode(s).lower().translate(PUNCT_TABLE)` after transliteration). -/
def normChar (c : Char) : Char := translateChar (pyLowerChar c)

/-- Python `s.split()` modelled in two stages: chop at every whitespace
character (producing possibly-empty chunks) … -/
def splitWs (l : List Char) : List (List Char) :=
  l.foldr
    (fun c acc =>
      if isPyWs c then [] :: acc else (c :: acc.headD []) :: acc.tail)
    [[]]

/-- … then drop the empty chunks, as `str.split()` (no argument) does. -/
def pyWords (l : List Char) : List (List Char) :=
  (splitWs l).filter (fun w => w ≠ [])

/-- Python `" ".join(ws)`. -/
def unwords : List (List Char) → List Char
  | [] => []
  | [w] => w
  | w :: w' :: ws => w ++ ' ' :: unwords (w' :: ws)

/-- `normalize_text` from the source:
`unidecode(s or "").lower().translate(PUNCT_TABLE)` followed by
`" ".join(s.split())`. -/
def normalize_text (s : String) : String :=
  (unwords (pyWords ((uniChars s).map normChar))).asString

/-- `normalize_text` as called on a Python `Optional[str]`: `s or ""`
turns `None` (and `""`) into `""`. -/
def normalize_textOpt (s : Option String) : String :=
  normalize_text (s.getD "")

/-- `only_digits_x`: keep digits and `x`/`X`, uppercasing the latter. -/
def only_digits_x (s : String) : String :=
  ((s.toList.filter (fun ch => ch.isDigit || ch = 'x' || ch = 'X')).map
    (fun ch => if ch = 'x' then 'X' else ch)).asString

/-! ### ISBN / ISSN validation -/

/-- Python `int(ch)` on a single character inside a `try:` block:
`some` digit value, `none` when it would raise `ValueError`. -/
def charDigit (c : Char) : Option Nat :=
  if c.isDigit then some (c.toNat - 48) else none

/-- `is_valid_isbn10`: the `try/except` around `int(x)` turns a non-digit
among the first nine characters into `False`. -/
def is_valid_isbn10 (d : String) : Bool :=
  if d.length ≠ 10 then false
  else
    match ((d.toList.take 9).mapM charDigit) with
    | none => false
    | some ds =>
      let total := (ds.enum.map (fun p => (p.1 + 1) * p.2)).sum
      let md := total % 11
      let c9 := d.toList.getD 9 ' '
      (c9 = 'X' && md = 10) ||
        (c9.isDigit && ((charDigit c9).getD 0 = md))

/-- `is_valid_isbn13`. -/
def is_valid_isbn13 (d : String) : Bool :=
  if d.length ≠ 13 || !(d.toList.all Char.isDigit) then false
  else
    let ds := (d.toList.take 12).map (fun c => (charDigit c).getD 0)
    let s := (ds.enum.map (fun p => (if p.1 % 2 = 0 then 1 else 3) * p.2)).sum
    (10 - s % 10) % 10 = (charDigit (d.toList.getD 12 ' ')).getD 0

/-- `is_valid_issn`: a 7-character input is first left-padded with `"0"`;
anything whose (padded) length is not 8 is rejected; the `try/except`
around `int(ch)` turns a non-digit among the first seven characters into
`False`.  The final comparison is between the one-character string
`"X" if chk == 10 else str(chk)` and `d[7]`. -/
def is_valid_issn (d0 : String) : Bool :=
  let d := if d0.length = 7 then "0" ++ d0 else d0
  if d.length ≠ 8 then false
  else
    match ((d.toList.take 7).mapM charDigit) with
    | none => false
    | some ds =>
      let tot := (ds.enum.map (fun p => (8 - p.1) * p.2)).sum
      let chk := (11 - tot % 11) % 11
      (if chk = 10 then "X" else Nat.repr chk) =
        String.singleton (d.toList.getD 7 ' ')

/-- `norm_isbn`, with the global `VALIDATE` flag made explicit. -/
def norm_isbn (validate : Bool) (s : String) : Option String :=
  let d := only_digits_x s
  if d.length = 10 then (if !validate || is_valid_isbn10 d then some d else none)
  else if d.length = 13 then (if !validate || is_valid_isbn13 d then some d else none)
  else none

/-- `norm_issn`, with the global `VALIDATE` flag made explicit.  Note the
source has no length test here: a nonempty digit/X string of any length
reaches the `not VALIDATE or is_valid_issn(d)` test directly. -/
def norm_issn (validate : Bool) (s : String) : Option String :=
  let d := only_digits_x s
  if d = "" then none
  else if !validate || is_valid_issn d then some d else none

/-! ### MARC record model (`pymarc` interface) -/

/-- A MARC field: control field (tag, data) or data field
(tag, two indicators, ordered `(code, value)` subfield list). -/
inductive MField where
  | control (tag : String) (data : String)
  | datafield (tag : String) (ind1 ind2 : String)
      (subfields : List (String × String))
deriving DecidableEq

/-- A MARC record: its ordered field list (`Record.fields` in `pymarc`). -/
abbrev MRecord := List MField

namespace MField

def tagOf : MField → String
  | control t _ => t
  | datafield t _ _ _ => t

/-- `Field.data` (meaningful on control fields only). -/
def dataOf : MField → String
  | control _ d => d
  | datafield _ _ _ _ => ""

/-- `Field.indicator1` / `indicator2`: `none` models the `None`
indicators of a control field. -/
def ind1Opt : MField → Option String
  | control _ _ => none
  | datafield _ i _ _ => some i

def ind2Opt : MField → Option String
  | control _ _ => none
  | datafield _ _ i _ => some i

/-- `Field.get_subfields(*codes)`: values of the subfields whose code is
among `codes`, in subfield order. -/
def get_subfields (f : MField) (codes : List String) : List String :=
  match f with
  | control _ _ => []
  | datafield _ _ _ subs => (subs.filter (fun sc => sc.1 ∈ codes)).map (·.2)

end MField

/-- `Record.get_fields(tag)`: the fields with the given tag, in record
order. -/
def get_fields (r : MRecord) (tag : String) : List MField :=
  r.filter (fun f => f.tagOf = tag)

/-! ### Field extraction -/

/-- The `001` fallback of `get_local_id` (`(f001[0].data or "").strip()`). -/
def local_id_001 (r : MRecord) : String :=
  match get_fields r "001" with
  | f001 :: _ => pyStrip f001.dataOf
  | [] => ""

/-- `get_local_id`: `999 $c` first, then the `001` control field. -/
def get_local_id (r : MRecord) : String :=
  match get_fields r "999" with
  | f999 :: _ =>
    match f999.get_subfields ["c"] with
    | c :: _ => pyStrip c
    | [] => local_id_001 r
  | [] => local_id_001 r

/-- `extract_author`: first of `100`/`110`/`111`, subfields `a b c d`
joined with spaces. -/
def extract_author (r : MRecord) : String :=
  match get_fields r "100" with
  | f :: _ => String.intercalate " " (f.get_subfields ["a", "b", "c", "d"])
  | [] =>
    match get_fields r "110" with
    | f :: _ => String.intercalate " " (f.get_subfields ["a", "b", "c", "d"])
    | [] =>
      match get_fields r "111" with
      | f :: _ => String.intercalate " " (f.get_subfields ["a", "b", "c", "d"])
      | [] => ""

/-- `extract_title`: `245` subfields `a b` joined with a space. -/
def extract_title (r : MRecord) : String :=
  match get_fields r "245" with
  | f :: _ => String.intercalate " " (f.get_subfields ["a", "b"])
  | [] => ""

/-- First `$c` of the given tags whose digit run is at least 4 long,
truncated to 4 digits (the `264`/`260` loop of `extract_year`). -/
def yearFromSubfields (r : MRecord) (tag : String) : Option String :=
  (((get_fields r tag).map (fun f => f.get_subfields ["c"])).flatten).firstSome
    (fun c =>
      let y := c.toList.filter Char.isDigit
      if y.length ≥ 4 then some ((y.take 4).asString) else none)

/-- `extract_year`: `264` then `260` date subfields, falling back to
positions 7–10 of the `008` control field. -/
def extract_year (r : MRecord) : String :=
  match yearFromSubfields r "264" with
  | some y => y
  | none =>
    match yearFromSubfields r "260" with
    | some y => y
    | none =>
      match get_fields r "008" with
      | f008 :: _ =>
        if f008.dataOf.length ≥ 11 then
          let y := ((f008.dataOf.toList.drop 7).take 4).asString
          if y.toList.all Char.isDigit && y ≠ "" then y else ""
        else ""
      | [] => ""

/-- `build_fuzzy_key`: `normalize_text(f"{author}|{title}|{year}")`. -/
def build_fuzzy_key (r : MRecord) : String :=
  normalize_text
    (extract_author r ++ "|" ++ extract_title r ++ "|" ++ extract_year r)

/-- `extract_strong_key`: first valid ISBN from `020 $a $z`, else first
valid ISSN from `022 $a $y $z`, else `none`.  (`if i:` — a returned
identifier is never empty, and the model checks nonemptiness exactly as
Python truthiness does.) -/
def extract_strong_key (validate : Bool) (r : MRecord) : Option String :=
  match (((get_fields r "020").map
      (fun f => f.get_subfields ["a", "z"])).flatten).firstSome
      (fun v => (norm_isbn validate v).filter (fun i => i ≠ "")) with
  | some i => some ("ISBN:" ++ i)
  | none =>
    match (((get_fields r "022").map
        (fun f => f.get_subfields ["a", "y", "z"])).flatten).firstSome
        (fun v => (norm_issn validate v).filter (fun i => i ≠ "")) with
    | some i => some ("ISSN:" ++ i)
    | none => none

/-! ### Authority patterns (`AUTH_PATTERNS`, translated from the regexes)

The values compared below are `v.lower().strip()`, so the patterns see
lower-case text with no surrounding whitespace; `re.IGNORECASE` is
therefore immaterial. -/

/-- `^(viaf:? *\d+|\d\x7b8\x7d)$` -/
def matchVVIAF (v : String) : Bool :=
  (v.toList.take 4 = "viaf".toList &&
    (let l1 := match v.toList.drop 4 with
               | ':' :: rest => rest
               | l => l
     let l2 := l1.dropWhile (fun c => c = ' ')
     !l2.isEmpty && l2.all Char.isDigit)) ||
  (v.length = 8 && v.toList.all Char.isDigit)

/-- `^(isni:? *\d\x7b15\x7d[0-9xX])$` -/
def matchISNI (v : String) : Bool :=
  v.toList.take 4 = "isni".toList &&
    (let l1 := match v.toList.drop 4 with
               | ':' :: rest => rest
               | l => l
     let l2 := l1.dropWhile (fun c => c = ' ')
     l2.length = 16 && (l2.take 15).all Char.isDigit &&
       (match l2.drop 15 with
        | [c] => c.isDigit || c = 'x' || c = 'X'
        | _ => false))

/-- `^(wd:Q\d+|wikidata:Q\d+)$` (input already lower-cased) -/
def matchWD (v : String) : Bool :=
  (v.toList.take 4 = "wd:q".toList && !(v.toList.drop 4).isEmpty &&
    (v.toList.drop 4).all Char.isDigit) ||
  (v.toList.take 10 = "wikidata:q".toList && !(v.toList.drop 10).isEmpty &&
    (v.toList.drop 10).all Char.isDigit)

/-- `^(PREFIX.+)$`: the shape shared by the `bne:`/`lemac:`/`cantic:`
patterns (`.` does not match a newline; the value is stripped, so there is
no trailing newline for `$` to sit in front of). -/
def matchLabelled (pre : String) (v : String) : Bool :=
  v.toList.take pre.length = pre.toList &&
    !(v.toList.drop pre.length).isEmpty &&
    (v.toList.drop pre.length).all (fun c => c ≠ '\n')

/-- `AUTH_SCORES` applied to the first matching pattern, in the insertion
order of the `AUTH_PATTERNS` dict, with `OTHER → 2` as fallback. -/
def authScore (v2 : String) : Nat :=
  if matchVVIAF v2 then 6
  else if matchISNI v2 then 6
  else if matchWD v2 then 5
  else if matchLabelled "bne:" v2 then 4
  else if matchLabelled "lemac:" v2 then 4
  else if matchLabelled "cantic:" v2 then 4
  else 2

/-- `v.lower().strip()` (ASCII lowering; the identifiers involved are
ASCII). -/
def lowerStrip (v : String) : String :=
  pyStrip ((v.toList.map pyLowerChar).asString)

/-- Python `int(tag)` inside `try:` on a MARC tag: `some` value for an
all-digit nonempty string, `none` (→ `continue`) otherwise. -/
def strToNat (s : String) : Option Nat :=
  if s ≠ "" ∧ s.toList.all Char.isDigit then
    some (s.toList.foldl (fun n c => n * 10 + (c.toNat - 48)) 0)
  else none

/-- `score_authorities`: every `$9` subfield of each field whose numeric
tag lies in 100–111, 600–699 or 700–799 contributes its `authScore`;
fields with non-numeric tags are skipped (the `try: int(f.tag)`). -/
def score_authorities (r : MRecord) : Nat :=
  (r.map (fun f =>
    match strToNat f.tagOf with
    | none => 0
    | some t =>
      if (100 ≤ t ∧ t ≤ 111) ∨ (600 ≤ t ∧ t ≤ 699) ∨ (700 ≤ t ∧ t ≤ 799) then
        ((f.get_subfields ["9"]).map (fun v => authScore (lowerStrip v))).sum
      else 0)).sum

/-! ### Scoring and primary selection -/

/-- The two `+1`-per-non-blank-indicator contributions of one field
(`f.indicator1 not in (" ", "", None)`). -/
def indScore (f : MField) : Nat :=
  (match f.ind1Opt with
   | none => 0
   | some i => if i ≠ " " ∧ i ≠ "" then 1 else 0) +
  (match f.ind2Opt with
   | none => 0
   | some i => if i ≠ " " ∧ i ≠ "" then 1 else 0)

/-- `score_record`. -/
def score_record (r : MRecord) : Nat :=
  (if !(get_fields r "245").isEmpty then 15 else 0) +
  (if !(get_fields r "260").isEmpty || !(get_fields r "264").isEmpty then 10 else 0) +
  (if !(get_fields r "100").isEmpty || !(get_fields r "110").isEmpty ||
      !(get_fields r "111").isEmpty then 8 else 0) +
  (if !(get_fields r "020").isEmpty then 12 else 0) +
  (if !(get_fields r "022").isEmpty then 10 else 0) +
  (if !(get_fields r "300").isEmpty then 4 else 0) +
  (match get_fields r "008" with
   | f :: _ => if f.dataOf.length ≥ 40 then 15 else 0
   | [] => 0) +
  (r.map indScore).sum +
  score_authorities r

/-! ### Internal structures -/

/-- `SourceRecord` dataclass. -/
structure SourceRecord where
  lib : String
  local_id : String
  record : MRecord
  strong_key : Option String
  fuzzy_key : Option String
deriving DecidableEq

/-- `Cluster` dataclass.  The Python `set` fields are modelled as
insertion-ordered duplicate-free lists; every consumer of these sets in
the source sorts them first, so only their underlying set of elements is
observable. -/
structure Cluster where
  id : Nat
  members : List SourceRecord
  strong_keys : List String
  fuzzy_keys : List String
deriving DecidableEq

/-- `choose_primary`, returning the *position* of the chosen member in
the member list (Python returns the member object itself; positions model
object identity, which the merge step needs to track aliasing).  `best`
is never empty for a nonempty cluster, and clusters always have members
when this is called. -/
def choose_primary_idx (members : List SourceRecord) (prefer : List String) : Nat :=
  let scored := members.map (fun m => score_record m.record)
  let maxsc := scored.foldl max 0
  let best := (List.range members.length).filter (fun i => scored.getD i 0 = maxsc)
  match prefer.firstSome
      (fun lib => best.find? (fun i => ((members[i]?).map (·.lib)).getD "" = lib)) with
  | some i => i
  | none => best.headD 0

/-! ### Cluster merging (`merge_cluster`) -/

/-- Sorted view of a Python set of strings (`sorted(s)`). -/
def sortStrings (l : List String) : List String :=
  List.insertionSort (fun a b : String => a ≤ b) l

/-- The set of elements of `l` as a duplicate-free list (insertion
order; only consumed through `sortStrings`). -/
def dedupKeep (l : List String) : List String :=
  l.foldl (fun acc x => if x ∈ acc then acc else acc ++ [x]) []

/-- The record of member `i`, as seen *during* the merge: the primary
member's record is the very object being mutated (`sr.record is rec` in
Python), so for `i = p` the current working record is returned. -/
def recordOfMember (members : List SourceRecord) (p : Nat) (cur : MRecord)
    (i : Nat) : MRecord :=
  if i = p then cur else (((members[i]?).map (·.record)).getD [])

/-- `Field(tag=f.tag, indicators=[...], subfields=[Subf(sf.code, sf.value) …])`:
a fresh copy of a donated field.  (Copying a control field through this
constructor would produce a degenerate data field; the preferred-fields
tags in use are data fields.) -/
def copyField : MField → MField
  | MField.datafield t i1 i2 subs => MField.datafield t i1 i2 subs
  | MField.control t _ => MField.datafield t "" "" []

/-- `for f in list(rec.get_fields(tag)): rec.remove_field(f)` — every
field carrying `tag` is removed, one `list.remove` at a time. -/
def remove_tag_fields (cur : MRecord) (t : String) : MRecord :=
  (get_fields cur t).foldl (fun r f => r.erase f) cur

/-- One iteration of the preferred-fields loop of `merge_cluster`:
strip the tag, find the first member owning it (reading the primary
through the working record), remove the tag from the working record,
then copy the donor's occurrences — the donor being re-read *after* the
removal, exactly as the aliased Python objects behave. -/
def donate_tag (members : List SourceRecord) (p : Nat) (cur : MRecord)
    (tag0 : String) : MRecord :=
  let t := pyStrip tag0
  if t = "" then cur
  else
    match (List.range members.length).find?
        (fun i => !(get_fields (recordOfMember members p cur i) t).isEmpty) with
    | none => cur
    | some b =>
      let cur2 := remove_tag_fields cur t
      cur2 ++ (get_fields (recordOfMember members p cur2 b) t).map copyField

/-- `merge_cluster`.  The `keep9` parameter is accepted and unused, as in
the source. -/
def merge_cluster (cl : Cluster) (prefer : List String)
    (prefer_fields : List String) (prov_tag hold_tag merge_tag : String)
    (keep9 : Bool) : MRecord :=
  let p := choose_primary_idx cl.members prefer
  let rec0 := ((cl.members[p]?).map (·.record)).getD []
  let rec1 := cl.members.foldl
    (fun r sr =>
      r ++
      [MField.datafield prov_tag " " " "
         [("a", "(" ++ sr.lib ++ ")" ++ sr.local_id)],
       MField.datafield hold_tag " " " "
         ([("a", sr.lib)] ++ (if sr.local_id ≠ "" then [("b", sr.local_id)] else []))])
    rec0
  let rec2 := prefer_fields.foldl (donate_tag cl.members p) rec1
  let libs := sortStrings (dedupKeep (cl.members.map (·.lib)))
  rec2 ++
    [MField.datafield merge_tag " " " "
       [("a", "Registro colectivo de " ++ Nat.repr cl.members.length ++
          " registros. Bibliotecas: " ++ String.intercalate ", " libs)]]

/-! ### The incremental clustering engine (`build_clusters`)

The Python dicts `strong_index`/`fuzzy_index` are insertion-ordered maps
from key to a *reference* to a `Cluster` object; they are modelled as
association lists from key to cluster id (ids are unique, so an id plays
the role of the object reference), updates keeping the original position
of an existing key exactly as `dict` assignment does. -/

/-- Run configuration of one clustering run.  `sim` stands for the
external `rapidfuzz.fuzz.token_sort_ratio` scorer; `validate` is the
process-global `VALIDATE`; `weak` is `--weak-threshold`. -/
structure Cfg where
  validate : Bool
  weak : Nat
  use_fuzzy : Bool
  strong_only : Bool
  sim : String → String → Nat

/-- Engine state: cluster list (creation order), the two indices, and the
`next_id` counter. -/
structure BCState where
  clusters : List Cluster
  strong_index : List (String × Nat)
  fuzzy_index : List (String × Nat)
  next_id : Nat

/-- Python truthiness of an `Optional[str]`: `None` and `""` are falsy. -/
def truthyOpt : Option String → Bool
  | none => false
  | some s => s ≠ ""

/-- `dict` lookup on the association-list model. -/
def lookupIdx : List (String × Nat) → String → Option Nat
  | [], _ => none
  | (k, v) :: rest, key => if k = key then some v else lookupIdx rest key

/-- `dict` assignment: overwrite in place when the key exists (keeping
its position), append otherwise. -/
def idxUpdate (idx : List (String × Nat)) (k : String) (v : Nat) :
    List (String × Nat) :=
  if (lookupIdx idx k).isSome then
    idx.map (fun e => if e.1 = k then (e.1, v) else e)
  else idx ++ [(k, v)]

/-- Python `set.add` on the duplicate-free-list model of a set. -/
def addKey (l : List String) (k : String) : List String :=
  if k ∈ l then l else l ++ [k]

/-- The fuzzy for-loop: track `best_sc`/`best_cluster`, strictly-greater
scores only (`if sc > best_sc`), scanning the index in insertion order. -/
def fuzzyScan (sim : String → String → Nat) (fk : String) :
    List (String × Nat) → Nat → Option Nat → Nat × Option Nat
  | [], b, bc => (b, bc)
  | (key, cid) :: rest, b, bc =>
    let sc := sim fk key
    if sc > b then fuzzyScan sim fk rest sc (some cid)
    else fuzzyScan sim fk rest b bc

/-- `if sk and sk in strong_index` — the strong hit, or `none`. -/
def strongLookup (idx : List (String × Nat)) (sk : Option String) :
    Option Nat :=
  match sk with
  | some k => if k ≠ "" then lookupIdx idx k else none
  | none => none

/-- The cluster (id) an incoming record is assigned to, or `none` when a
fresh cluster must be created: the strong hit first, else — when fuzzy
matching is on, strong-only is off and the fuzzy key is truthy — the best
fuzzy cluster provided `best_cluster` is set and `best_sc >= weak`. -/
def pickCluster (cfg : Cfg) (st : BCState) (sk fk : Option String) :
    Option Nat :=
  match strongLookup st.strong_index sk with
  | some cid => some cid
  | none =>
    if cfg.use_fuzzy && !cfg.strong_only && truthyOpt fk then
      let bs := fuzzyScan cfg.sim (fk.getD "") st.fuzzy_index 0 none
      match bs.2 with
      | some cid => if cfg.weak ≤ bs.1 then some cid else none
      | none => none
    else none

/-- `cl.members.append(sr)` plus the two `set.add`s, applied to the
cluster object `cid` refers to (ids are unique along any reachable
state). -/
def updateClusterWith (cid : Nat) (sr : SourceRecord) (sk fk : Option String)
    (c : Cluster) : Cluster :=
  if c.id = cid then
    { c with
      members := c.members ++ [sr],
      strong_keys :=
        if truthyOpt sk then addKey c.strong_keys (sk.getD "") else c.strong_keys,
      fuzzy_keys :=
        if truthyOpt fk then addKey c.fuzzy_keys (fk.getD "") else c.fuzzy_keys }
  else c

/-- The body of the per-record loop of `build_clusters`, after `sk` and
`fk` have been computed. -/
def applyRecord (cfg : Cfg) (st : BCState) (lib : String) (r : MRecord)
    (sk fk : Option String) : BCState :=
  let sr : SourceRecord := ⟨lib, get_local_id r, r, sk, fk⟩
  let pc := pickCluster cfg st sk fk
  let cid := pc.getD st.next_id
  let st1 :=
    match pc with
    | some _ => st
    | none =>
      { st with
        clusters := st.clusters ++ [(⟨st.next_id, [], [], []⟩ : Cluster)],
        next_id := st.next_id + 1 }
  { st1 with
    clusters := st1.clusters.map (updateClusterWith cid sr sk fk),
    strong_index :=
      if truthyOpt sk then idxUpdate st1.strong_index (sk.getD "") cid
      else st1.strong_index,
    fuzzy_index :=
      if truthyOpt fk then idxUpdate st1.fuzzy_index (fk.getD "") cid
      else st1.fuzzy_index }

/-- One record of the stream: keys are extracted
(`fk` only when fuzzy matching is enabled) and the record applied. -/
def step (cfg : Cfg) (st : BCState) (item : String × MRecord) : BCState :=
  applyRecord cfg st item.1 item.2 (extract_strong_key cfg.validate item.2)
    (if cfg.use_fuzzy then some (build_fuzzy_key item.2) else none)

/-- Initial engine state (`next_id = 1`, everything empty). -/
def initState : BCState := ⟨[], [], [], 1⟩

/-- The engine run over an already-flattened stream of `(lib, record)`
items. -/
def build_clusters_list (cfg : Cfg) (items : List (String × MRecord)) :
    BCState :=
  items.foldl (step cfg) initState

/-- `build_clusters`: sources in order, records of each source in file
order. -/
def build_clusters (cfg : Cfg) (sources : List (String × List MRecord)) :
    BCState :=
  sources.foldl
    (fun st s => s.2.foldl (fun st2 r => step cfg st2 (s.1, r)) st)
    initState

/-- The nested source/record loop is the run over the flattened
`(lib, record)` stream: the two presentations of the engine agree. -/
theorem build_clusters_eq_list (cfg : Cfg)
    (sources : List (String × List MRecord)) :
    build_clusters cfg sources =
      build_clusters_list cfg
        ((sources.map (fun s => s.2.map (fun r => (s.1, r)))).flatten) := by
  unfold build_clusters build_clusters_list
  generalize initState = st0
  induction sources generalizing st0 with
  | nil => rfl
  | cons s rest ih =>
    rw [List.foldl_cons, List.map_cons, List.flatten_cons, List.foldl_append,
      ih, List.foldl_map]

/-! ### Output shaping (`write_report`, `write_json`, `write_union`) -/

/-- One CSV row of `write_report`:
`cluster_id, size, ";".join(sorted(strong_keys)), ";".join(sorted({m.lib}))`. -/
def report_row (c : Cluster) : Nat × Nat × String × String :=
  (c.id, c.members.length,
   String.intercalate ";" (sortStrings c.strong_keys),
   String.intercalate ";" (sortStrings (dedupKeep (c.members.map (·.lib)))))

/-- One entry of the JSON manifest of `write_json`. -/
structure JsonEntry where
  cluster_id : Nat
  strong_keys : List String
  members : List (String × String)
deriving DecidableEq

def json_entry (c : Cluster) : JsonEntry :=
  ⟨c.id, sortStrings c.strong_keys, c.members.map (fun m => (m.lib, m.local_id))⟩

/-- Configuration of the merge/serialisation phase. -/
structure MergeCfg where
  prefer : List String
  prefer_fields : List String
  prov_tag : String
  hold_tag : String
  merge_tag : String
  keep9 : Bool

/-- `write_union` without the I/O: the merged record of every cluster, in
cluster-id order. -/
def write_union_records (mc : MergeCfg) (clusters : List Cluster) :
    List MRecord :=
  clusters.map (fun c =>
    merge_cluster c mc.prefer mc.prefer_fields mc.prov_tag mc.hold_tag
      mc.merge_tag mc.keep9)

/-- The full observable output of one engine run: merged records, CSV
rows and JSON manifest. -/
def runEngine (cfg : Cfg) (mc : MergeCfg)
    (sources : List (String × List MRecord)) :
    List MRecord × List (Nat × Nat × String × String) × List JsonEntry :=
  let cls := (build_clusters cfg sources).clusters
  (write_union_records mc cls, cls.map report_row, cls.map json_entry)

/-! ### Source-argument parsing (from `main`) -/

/-- Python `s.split("=", 1)`: the part before the first `=` and the part
after it. -/
def split_first_eq (s : String) : String × String :=
  ((s.toList.takeWhile (fun c => c ≠ '=')).asString,
   ((s.toList.dropWhile (fun c => c ≠ '=')).drop 1).asString)

/-- The source-argument loop of `main`: arguments without `=` are passed
over by `continue`; the rest contribute `(lib.strip(), path.strip())`. -/
def parse_sources (args : List String) : List (String × String) :=
  args.foldl
    (fun acc s =>
      if s.toList.contains '=' then
        acc ++ [(pyStrip (split_first_eq s).1, pyStrip (split_first_eq s).2)]
      else acc)
    []

/-! ### Spec-side restatement of the ISSN check (for the refinement
claim C8): the wording of §4.1 of the specification, written
independently of the code. -/

/-- `Σ (8-i)*digit_i` phrased as a descending-weight recursion. -/
def issnSpecSum : Nat → List Nat → Nat
  | _, [] => 0
  | w, d :: ds => w * d + issnSpecSum (w - 1) ds

/-- The ISSN rule as the specification words it: left-pad a length-7
digit/X string with one `"0"`, reject anything not of length 8, compute
`Σ (8-i)*digit_i` over positions 0..6 (which requires those positions to
be digits), `chk = (11 - sum%11) % 11`, and demand position 7 be `X` when
`chk = 10` and the digit `chk` otherwise. -/
def issn_check_spec (d : String) : Bool :=
  let padded := if d.length = 7 then "0" ++ d else d
  if padded.length = 8 then
    match (padded.toList.take 7).mapM charDigit with
    | none => false
    | some ds =>
      let chk := (11 - issnSpecSum 8 ds % 11) % 11
      padded.toList.getD 7 ' ' = (if chk = 10 then 'X' else Char.ofNat (48 + chk))
  else false

/-! ## Claim theorems -/

/-! ### C1 — preferred-field donation (`merge_cluster`) -/

/-- A one-member cluster whose member carries a single `245` title
field — the smallest cluster on which the preferred-field donation runs
with the donor member being the primary record itself. -/
def sampleTitleRecord : MRecord :=
  [MField.datafield "245" "1" "0" [("a", "Historia general")]]

def sampleSingletonCluster : Cluster :=
  ⟨1, [⟨"L1", "A1", sampleTitleRecord, none, none⟩], [], []⟩

/-- C1: the claim asserts that, for a preferred tag, the merged record
contains exactly the donor member's occurrences of that tag, *including
when the donor is the primary record itself*.  The code violates this:
`best_rec` aliases the working record, so the removal pass empties the
donor before the copy pass reads it.  On a singleton cluster with one
`245` field and the default preferred-fields list, the merged record
comes out with **no** `245` at all, while its sole member does have one. -/
theorem merge_cluster_drops_tag_when_donor_is_primary :
    get_fields
        (merge_cluster sampleSingletonCluster [] ["245", "260", "264"]
          "035" "910" "948" false) "245" = [] ∧
      get_fields sampleTitleRecord "245" ≠ [] := by
  exact ⟨by decide, by decide⟩

/-! ### C4 — identifier normalisation with checksum enforcement off -/

/-- C4 counterexample: with enforcement disabled, `norm_issn` accepts the
5-character digit string `"12345"`, although the claim demands that
lengths other than 8 still be rejected. -/
theorem norm_issn_nochecksum_wrong_length_accepted :
    norm_issn false "12345" = some "12345" ∧ "12345".length ≠ 8 := by
  exact ⟨by decide, by decide⟩

/-- C4 (amended): with checksum enforcement disabled, `norm_isbn` accepts
exactly the digit/X reductions of length 10 or 13, but `norm_issn`
accepts *every nonempty* digit/X reduction with no length test at all;
and everything either accepts is made of digits and `X` only. -/
theorem norm_id_nochecksum_characterisation :
    (∀ s, norm_isbn false s =
      (if (only_digits_x s).length = 10 ∨ (only_digits_x s).length = 13
       then some (only_digits_x s) else none)) ∧
    (∀ s, norm_issn false s =
      (if only_digits_x s = "" then none else some (only_digits_x s))) ∧
    (∀ s c, c ∈ (only_digits_x s).toList → c.isDigit ∨ c = 'X') := by
  refine ⟨fun s => ?_, fun s => ?_, fun s c hc => ?_⟩
  · simp only [norm_isbn, Bool.not_false, Bool.true_or, if_true]
    by_cases h10 : (only_digits_x s).length = 10 <;>
      by_cases h13 : (only_digits_x s).length = 13 <;>
      simp [h10, h13]
  · simp only [norm_issn, Bool.not_false, Bool.true_or, if_true]
  · simp only [only_digits_x, List.asString, String.toList] at hc
    rcases List.mem_map.mp hc with ⟨x, hx, hfx⟩
    rcases List.mem_filter.mp hx with ⟨-, hpx⟩
    subst hfx
    by_cases hxx : x = 'x'
    · simp [hxx]
    · simp only [hxx, if_false]
      rcases Bool.or_eq_true_iff.mp hpx with h | h
      · rcases Bool.or_eq_true_iff.mp h with h' | h'
        · exact Or.inl h'
        · exact absurd (by exact decide_eq_true_eq.mp h') hxx
      · exact Or.inr (decide_eq_true_eq.mp h)

/-- C4 (amended) witness: a 17-digit ISBN candidate is still rejected, a
5-digit ISSN candidate is accepted verbatim, and the accepted characters
are digits/X. -/
theorem norm_id_nochecksum_witness :
    norm_isbn false "12345678901234567" = none ∧
      norm_issn false "99999" = some "99999" ∧
      ('9'.isDigit ∨ '9' = 'X') := by
  obtain ⟨h1, h2, h3⟩ := norm_id_nochecksum_characterisation
  refine ⟨(h1 "12345678901234567").trans (by decide),
          (h2 "99999").trans (by decide),
          h3 "99999" '9' (by decide)⟩

/-! ### C5 — malformed source arguments -/

/-- C5 counterexample: a source argument with no `=` is silently skipped
while the remaining sources are processed — the run neither reports a
configuration error nor aborts. -/
theorem parse_sources_silently_drops_malformed :
    parse_sources ["bad", "L=p.mrc"] = [("L", "p.mrc")] ∧
      "bad".toList.contains '=' = false := by
  exact ⟨by decide, by decide⟩

/-- C5 (amended): a source argument without `=` never aborts the run; the
`continue` drops it and every other source argument is processed exactly
as if the malformed one had not been given. -/
theorem parse_sources_skips_malformed (pre post : List String) (s : String)
    (h : s.toList.contains '=' = false) :
    parse_sources (pre ++ s :: post) = parse_sources (pre ++ post) := by
  unfold parse_sources
  rw [List.foldl_append, List.foldl_append, List.foldl_cons, h]
  simp

/-- C5 (amended) witness. -/
theorem parse_sources_skips_malformed_witness :
    parse_sources ["L1=a.mrc", "bad", "L2=b.mrc"] =
      parse_sources ["L1=a.mrc", "L2=b.mrc"] := by
  exact parse_sources_skips_malformed ["L1=a.mrc"] ["L2=b.mrc"] "bad" (by decide)

/-! ### C8 — the ISSN check-digit routine -/

theorem issn_enum_sum (ds : List Nat) :
    ∀ n, ((ds.enumFrom n).map (fun p => (8 - p.1) * p.2)).sum =
      issnSpecSum (8 - n) ds := by
  induction ds with
  | nil => intro n; simp [issnSpecSum]
  | cons d ds ih =>
    intro n
    simp only [List.enumFrom_cons, List.map_cons, List.sum_cons, ih (n + 1),
      issnSpecSum]
    have : 8 - (n + 1) = 8 - n - 1 := by omega
    rw [this]

theorem singleton_eq_singleton {a c : Char} :
    String.singleton a = String.singleton c ↔ a = c := by
  simp [String.singleton, String.ext_iff]

theorem repr_digit_singleton :
    ∀ chk : Nat, chk ≤ 9 → Nat.repr chk = String.singleton (Char.ofNat (48 + chk)) := by
  intro chk h
  interval_cases chk <;> decide

theorem issn_check_char (chk : Nat) (h : chk ≤ 10) (c : Char) :
    ((if chk = 10 then "X" else Nat.repr chk) = String.singleton c) ↔
      (c = (if chk = 10 then 'X' else Char.ofNat (48 + chk))) := by
  by_cases h10 : chk = 10
  · subst h10
    rw [if_pos rfl, if_pos rfl, show ("X" : String) = String.singleton 'X' from rfl,
      singleton_eq_singleton]
    exact eq_comm
  · rw [if_neg h10, if_neg h10, repr_digit_singleton chk (by omega),
      singleton_eq_singleton]
    exact eq_comm

/-- C8: the embedded `is_valid_issn` coincides, on every input string,
with the specification's own wording of the rule (`issn_check_spec`):
length-7 inputs are left-padded with one `"0"`, non-length-8 inputs are
rejected, and otherwise the weighted sum `Σ (8-i)*digit_i` over positions
0..6 determines `chk = (11 - sum%11) % 11`, position 7 having to be `X`
when `chk = 10` and the digit `chk` otherwise. -/
theorem is_valid_issn_matches_spec :
    ∀ d, is_valid_issn d = issn_check_spec d := by
  intro d0
  unfold is_valid_issn issn_check_spec
  simp only []
  by_cases h8 : (if d0.length = 7 then "0" ++ d0 else d0).length = 8
  · rw [if_neg (not_not_intro h8), if_pos h8]
    cases hm : ((if d0.length = 7 then "0" ++ d0 else d0).toList.take 7).mapM charDigit with
    | none => rfl
    | some ds =>
      have hs := issn_enum_sum ds 0
      simp only [Nat.sub_zero] at hs
      simp only [List.enum]  at hs ⊢
      rw [hs]
      exact decide_eq_decide.mpr
        (issn_check_char _ (by omega) _)
  · rw [if_pos h8, if_neg h8]

/-! ### C9 / C10 — the text normaliser -/

theorem char_toNat_ofNat {n : Nat} (h : n < 55296) : (Char.ofNat n).toNat = n := by
  have hv : n.isValidChar := Or.inl h
  rw [Char.ofNat, dif_pos hv]
  simp [Char.ofNatAux, Char.toNat, UInt32.toNat]

theorem pyLower_toNat (c : Char) :
    (pyLowerChar c).toNat =
      if 65 ≤ c.toNat ∧ c.toNat ≤ 90 then c.toNat + 32 else c.toNat := by
  unfold pyLowerChar
  split_ifs with h
  · exact char_toNat_ofNat (by omega)
  · rfl

theorem pyLower_idem (c : Char) :
    pyLowerChar (pyLowerChar c) = pyLowerChar c := by
  by_cases h : 65 ≤ c.toNat ∧ c.toNat ≤ 90
  · have h2 : (pyLowerChar c).toNat = c.toNat + 32 := by
      rw [pyLower_toNat, if_pos h]
    have ha : ¬(65 ≤ (pyLowerChar c).toNat ∧ (pyLowerChar c).toNat ≤ 90) := by
      omega
    calc pyLowerChar (pyLowerChar c)
        = if 65 ≤ (pyLowerChar c).toNat ∧ (pyLowerChar c).toNat ≤ 90 then
            Char.ofNat ((pyLowerChar c).toNat + 32)
          else pyLowerChar c := rfl
      _ = pyLowerChar c := if_neg ha
  · have h0 : pyLowerChar c = c := by
      unfold pyLowerChar
      rw [if_neg h]
    rw [h0, h0]

theorem pyLower_ascii {c : Char} (h : c.toNat ≤ 127) :
    (pyLowerChar c).toNat ≤ 127 := by
  rw [pyLower_toNat]
  split_ifs with h' <;> omega

theorem normChar_space : normChar ' ' = ' ' := by decide

theorem normChar_idem (c : Char) : normChar (normChar c) = normChar c := by
  unfold normChar translateChar
  by_cases hp : PUNCT_TABLE.toList.contains (pyLowerChar c) = true
  · rw [if_pos hp]
    have : normChar ' ' = ' ' := normChar_space
    unfold normChar translateChar at this
    exact this
  · rw [if_neg hp, pyLower_idem, if_neg hp]

theorem normChar_ascii {c : Char} (h : c.toNat ≤ 127) :
    (normChar c).toNat ≤ 127 := by
  unfold normChar translateChar
  split_ifs
  · decide
  · exact pyLower_ascii h

/-- characters produced by the `unidecode` model are ASCII -/
theorem unidecodeChar_ascii (c : Char) :
    ∀ c' ∈ (unidecodeChar c).toList, c'.toNat ≤ 127 := by
  unfold unidecodeChar
  split_ifs with h
  · intro c' hc'
    have he : c' = c := List.mem_singleton.mp hc'
    rw [he]
    exact h
  · have htab : ∀ p ∈ uniTable, ∀ ch ∈ p.2.toList, ch.toNat ≤ 127 := by decide
    intro c' hc'
    cases hl : uniTable.lookup c with
    | none => rw [hl] at hc'; cases hc'
    | some s =>
      rw [hl] at hc'
      rcases List.lookup_eq_some_iff.mp hl with ⟨l₁, l₂, he, -⟩
      have hp : (c, s) ∈ uniTable := by
        rw [he]
        exact List.mem_append.mpr (Or.inr (List.mem_cons_self _ _))
      exact htab (c, s) hp c' hc'

theorem uniChars_ascii (s : String) : ∀ c ∈ uniChars s, c.toNat ≤ 127 := by
  intro c hc
  unfold uniChars at hc
  rcases List.mem_flatten.mp hc with ⟨l, hl, hcl⟩
  rcases List.mem_map.mp hl with ⟨c0, _, rfl⟩
  exact unidecodeChar_ascii c0 c hcl

theorem flatten_uni_of_ascii (L : List Char) (h : ∀ c ∈ L, c.toNat ≤ 127) :
    (L.map (fun c => (unidecodeChar c).toList)).flatten = L := by
  induction L with
  | nil => rfl
  | cons c cs ih =>
    have hc : c.toNat ≤ 127 := h c (List.mem_cons_self c cs)
    have h1 : unidecodeChar c = String.singleton c := by
      unfold unidecodeChar
      rw [if_pos hc]
    simp only [List.map_cons, List.flatten_cons, h1]
    rw [ih (fun x hx => h x (List.mem_cons_of_mem c hx))]
    rfl

theorem uniChars_of_ascii (L : List Char) (h : ∀ c ∈ L, c.toNat ≤ 127) :
    uniChars (L.asString) = L := by
  unfold uniChars
  exact flatten_uni_of_ascii L h

/-! word-splitting lemmas (`str.split()` / `" ".join`) -/

theorem splitWs_nil : splitWs [] = [[]] := rfl

theorem splitWs_cons (c : Char) (l : List Char) :
    splitWs (c :: l) =
      if isPyWs c then [] :: splitWs l
      else (c :: (splitWs l).headD []) :: (splitWs l).tail := rfl

theorem splitWs_ne_nil (l : List Char) : splitWs l ≠ [] := by
  induction l with
  | nil => simp [splitWs_nil]
  | cons c cs ih =>
    rw [splitWs_cons]
    split_ifs <;> simp

theorem splitWs_no_ws (l : List Char) :
    ∀ w ∈ splitWs l, ∀ c ∈ w, isPyWs c = false := by
  induction l with
  | nil =>
    intro w hw c hc
    simp [splitWs_nil] at hw
    subst hw
    cases hc
  | cons a as ih =>
    intro w hw c hc
    rw [splitWs_cons] at hw
    rcases List.exists_cons_of_ne_nil (splitWs_ne_nil as) with ⟨w0, t0, he⟩
    by_cases ha : isPyWs a
    · rw [if_pos ha] at hw
      rcases List.mem_cons.mp hw with rfl | hw'
      · cases hc
      · exact ih w hw' c hc
    · rw [if_neg ha, he] at hw
      rcases List.mem_cons.mp hw with rfl | hw'
      · rcases List.mem_cons.mp hc with rfl | hc'
        · exact Bool.not_eq_true _ ▸ ha
        · exact ih w0 (he ▸ List.mem_cons_self w0 t0) c (by simpa using hc')
      · exact ih w (he ▸ List.mem_cons_of_mem w0 hw') c hc

theorem splitWs_mem (l : List Char) :
    ∀ w ∈ splitWs l, ∀ c ∈ w, c ∈ l := by
  induction l with
  | nil =>
    intro w hw c hc
    simp [splitWs_nil] at hw
    subst hw
    cases hc
  | cons a as ih =>
    intro w hw c hc
    rw [splitWs_cons] at hw
    rcases List.exists_cons_of_ne_nil (splitWs_ne_nil as) with ⟨w0, t0, he⟩
    by_cases ha : isPyWs a
    · rw [if_pos ha] at hw
      rcases List.mem_cons.mp hw with rfl | hw'
      · cases hc
      · exact List.mem_cons_of_mem a (ih w hw' c hc)
    · rw [if_neg ha, he] at hw
      rcases List.mem_cons.mp hw with rfl | hw'
      · rcases List.mem_cons.mp hc with rfl | hc'
        · exact List.mem_cons_self c as
        · exact List.mem_cons_of_mem a
            (ih w0 (he ▸ List.mem_cons_self w0 t0) c (by simpa using hc'))
      · exact List.mem_cons_of_mem a (ih w (he ▸ List.mem_cons_of_mem w0 hw') c hc)

theorem splitWs_append_word (w l : List Char)
    (hw : ∀ c ∈ w, isPyWs c = false) :
    splitWs (w ++ l) = (w ++ (splitWs l).headD []) :: (splitWs l).tail := by
  induction w with
  | nil =>
    rcases List.exists_cons_of_ne_nil (splitWs_ne_nil l) with ⟨w0, t0, he⟩
    simp [he]
  | cons a as ih =>
    have ha : isPyWs a = false := hw a (List.mem_cons_self a as)
    have ih' := ih (fun c hc => hw c (List.mem_cons_of_mem a hc))
    rw [List.cons_append, splitWs_cons, if_neg (by simp [ha]), ih']
    simp

theorem pyWords_unwords (ws : List (List Char))
    (h : ∀ w ∈ ws, w ≠ [] ∧ ∀ c ∈ w, isPyWs c = false) :
    pyWords (unwords ws) = ws := by
  induction ws with
  | nil => rfl
  | cons w ws ih =>
    rcases h w (List.mem_cons_self w ws) with ⟨hne, hnw⟩
    cases ws with
    | nil =>
      show pyWords (unwords [w]) = [w]
      unfold unwords pyWords
      have : w ++ ([] : List Char) = w := List.append_nil w
      rw [← this, splitWs_append_word w [] hnw]
      simp [splitWs_nil, hne]
    | cons w' ws' =>
      show pyWords (w ++ ' ' :: unwords (w' :: ws')) = w :: w' :: ws'
      unfold pyWords
      rw [splitWs_append_word w (' ' :: unwords (w' :: ws')) hnw,
        splitWs_cons]
      rw [if_pos (by decide)]
      simp only [List.headD_cons, List.tail_cons, List.append_nil, List.filter_cons]
      have hfilter := ih (fun x hx => h x (List.mem_cons_of_mem w hx))
      unfold pyWords at hfilter
      rw [hfilter]
      simp [hne]

theorem mem_unwords (ws : List (List Char)) (c : Char) (hc : c ∈ unwords ws) :
    (∃ w ∈ ws, c ∈ w) ∨ c = ' ' := by
  induction ws with
  | nil => cases hc
  | cons w ws ih =>
    cases ws with
    | nil =>
      exact Or.inl ⟨w, List.mem_cons_self w [], hc⟩
    | cons w' ws' =>
      rcases List.mem_append.mp hc with h | h
      · exact Or.inl ⟨w, List.mem_cons_self _ _, h⟩
      · rcases List.mem_cons.mp h with rfl | h'
        · exact Or.inr rfl
        · rcases ih h' with ⟨w0, hw0, hcw0⟩ | hsp
          · exact Or.inl ⟨w0, List.mem_cons_of_mem w hw0, hcw0⟩
          · exact Or.inr hsp

theorem map_self_of_fixed {f : Char → Char} :
    ∀ (l : List Char), (∀ c ∈ l, f c = c) → l.map f = l := by
  intro l h
  induction l with
  | nil => rfl
  | cons c cs ih =>
    rw [List.map_cons, h c (List.mem_cons_self c cs),
      ih (fun x hx => h x (List.mem_cons_of_mem c hx))]

/-- C9: `normalize_text` is a total function (here witnessed on the
Python `None`-like input through `normalize_textOpt`, where `s or ""`
produces the empty string) and idempotent on every string. -/
theorem normalize_text_idempotent :
    (∀ s, normalize_text (normalize_text s) = normalize_text s) ∧
      normalize_textOpt none = "" ∧ normalize_text "" = "" := by
  refine ⟨fun s => ?_, rfl, rfl⟩
  unfold normalize_text
  set m := (uniChars s).map normChar with hm
  set t := unwords (pyWords m) with ht
  have hmascii : ∀ c ∈ m, c.toNat ≤ 127 := by
    intro c hc
    rcases List.mem_map.mp hc with ⟨x, hx, rfl⟩
    exact normChar_ascii (uniChars_ascii s x hx)
  have hmem_t : ∀ c ∈ t, c ∈ m ∨ c = ' ' := by
    intro c hc
    rcases mem_unwords _ c hc with ⟨w, hw, hcw⟩ | hsp
    · have hw' : w ∈ splitWs m := List.mem_of_mem_filter hw
      exact Or.inl (splitWs_mem m w hw' c hcw)
    · exact Or.inr hsp
  have htascii : ∀ c ∈ t, c.toNat ≤ 127 := by
    intro c hc
    rcases hmem_t c hc with h | rfl
    · exact hmascii c h
    · decide
  have h1 : uniChars (t.asString) = t := uniChars_of_ascii t htascii
  have h2 : t.map normChar = t := by
    apply map_self_of_fixed
    intro c hc
    rcases hmem_t c hc with h | rfl
    · rcases List.mem_map.mp h with ⟨x, _, rfl⟩
      exact normChar_idem x
    · exact normChar_space
  have h3 : pyWords t = pyWords m := by
    rw [ht]
    exact pyWords_unwords (pyWords m)
      (fun w hw =>
        ⟨by simpa using (List.mem_filter.mp hw).2,
         splitWs_no_ws m w (List.mem_of_mem_filter hw)⟩)
  rw [h1, h2, h3]

/-- C10: `"|"` is punctuation, so the separators in
`f"{author}|{title}|{year}"` normalise to spaces and the fuzzy key is
exactly the normalisation of the space-separated concatenation — the key
does not genuinely delimit its three components. -/
theorem build_fuzzy_key_no_delimiter :
    ∀ r, build_fuzzy_key r =
      normalize_text
        (extract_author r ++ " " ++ extract_title r ++ " " ++ extract_year r) := by
  have key : ∀ a b y : String,
      normalize_text (a ++ "|" ++ b ++ "|" ++ y) =
        normalize_text (a ++ " " ++ b ++ " " ++ y) := by
    intro a b y
    unfold normalize_text
    have happ : ∀ u v : String, (u ++ v).toList = u.toList ++ v.toList := by
      intro u v
      rfl
    have huni : ∀ u v : String, uniChars (u ++ v) = uniChars u ++ uniChars v := by
      intro u v
      unfold uniChars
      rw [happ, List.map_append, List.flatten_append]
    have hbar : (uniChars "|").map normChar = (uniChars " ").map normChar := by
      decide
    rw [huni, huni, huni, huni, huni, huni, huni, huni]
    simp only [List.map_append]
    rw [hbar]
  intro r
  unfold build_fuzzy_key
  exact key _ _ _

/-! ### C3 — the fuzzy-scan maximum and the threshold boundary -/

theorem fuzzyScan_const_of_le (sim : String → String → Nat) (fk : String) :
    ∀ (l : List (String × Nat)) (b : Nat) (bc : Option Nat),
      (∀ e ∈ l, sim fk e.1 ≤ b) → fuzzyScan sim fk l b bc = (b, bc) := by
  intro l
  induction l with
  | nil => intro b bc _; rfl
  | cons e rest ih =>
    intro b bc h
    obtain ⟨k, cid⟩ := e
    have hle : sim fk k ≤ b := h (k, cid) (List.mem_cons_self _ _)
    simp only [fuzzyScan]
    rw [if_neg (by omega : ¬(sim fk k > b))]
    exact ih b bc (fun e he => h e (List.mem_cons_of_mem _ he))

theorem fuzzyScan_first_max (sim : String → String → Nat) (fk : String)
    (k : String) (cid : Nat) :
    ∀ (l1 : List (String × Nat)) (l2 : List (String × Nat)),
      (∀ e ∈ l1, sim fk e.1 < sim fk k) →
      (∀ e ∈ l2, sim fk e.1 ≤ sim fk k) →
      ∀ (b : Nat) (bc : Option Nat), b < sim fk k →
        fuzzyScan sim fk (l1 ++ (k, cid) :: l2) b bc = (sim fk k, some cid) := by
  intro l1
  induction l1 with
  | nil =>
    intro l2 _ h2 b bc hb
    simp only [List.nil_append, fuzzyScan]
    rw [if_pos (by omega : sim fk k > b)]
    exact fuzzyScan_const_of_le sim fk l2 _ _ h2
  | cons e rest ih =>
    intro l2 h1 h2 b bc hb
    obtain ⟨k1, c1⟩ := e
    have he : sim fk k1 < sim fk k := h1 (k1, c1) (List.mem_cons_self _ _)
    simp only [List.cons_append, fuzzyScan]
    by_cases hgt : sim fk k1 > b
    · rw [if_pos hgt]
      exact ih l2 (fun e hh => h1 e (List.mem_cons_of_mem _ hh)) h2 _ _ he
    · rw [if_neg hgt]
      exact ih l2 (fun e hh => h1 e (List.mem_cons_of_mem _ hh)) h2 _ _ hb

theorem updateClusterWith_id (cid : Nat) (sr : SourceRecord)
    (sk fk : Option String) (c : Cluster) :
    (updateClusterWith cid sr sk fk c).id = c.id := by
  unfold updateClusterWith
  split_ifs <;> rfl

theorem map_id_of_fixed {α : Type} {f : α → α} :
    ∀ (l : List α), (∀ c ∈ l, f c = c) → l.map f = l := by
  intro l h
  induction l with
  | nil => rfl
  | cons c cs ih =>
    rw [List.map_cons, h c (List.mem_cons_self c cs),
      ih (fun x hx => h x (List.mem_cons_of_mem c hx))]

/-- C3: in the fuzzy pass, for a record with a truthy fuzzy key and no
strong-index hit, the scan keeps the cluster of the *first* index key
achieving the maximum similarity (strict `>` — equal later scores never
override), and the record joins that cluster exactly when the best score
is `≥` the threshold (equality merges); below the threshold a fresh
singleton cluster is created instead. -/
theorem fuzzy_pass_first_max_threshold
    (cfg : Cfg) (st : BCState) (lib : String) (r : MRecord)
    (huf : cfg.use_fuzzy = true) (hso : cfg.strong_only = false)
    (hsl : strongLookup st.strong_index (extract_strong_key cfg.validate r) = none)
    (hfk : build_fuzzy_key r ≠ "")
    (k : String) (cid : Nat) (l1 l2 : List (String × Nat))
    (hidx : st.fuzzy_index = l1 ++ (k, cid) :: l2)
    (h1 : ∀ e ∈ l1, cfg.sim (build_fuzzy_key r) e.1 < cfg.sim (build_fuzzy_key r) k)
    (h2 : ∀ e ∈ l2, cfg.sim (build_fuzzy_key r) e.1 ≤ cfg.sim (build_fuzzy_key r) k)
    (hpos : 0 < cfg.sim (build_fuzzy_key r) k)
    (hwf : ∀ c ∈ st.clusters, c.id < st.next_id) :
    (pickCluster cfg st (extract_strong_key cfg.validate r)
        (some (build_fuzzy_key r)) =
      (if cfg.weak ≤ cfg.sim (build_fuzzy_key r) k then some cid else none)) ∧
    (cfg.weak ≤ cfg.sim (build_fuzzy_key r) k →
      ((step cfg st (lib, r)).clusters.find? (fun c => c.id = cid)).map
          Cluster.members =
        ((st.clusters.find? (fun c => c.id = cid)).map Cluster.members).map
          (fun ms => ms ++
            [⟨lib, get_local_id r, r, extract_strong_key cfg.validate r,
              some (build_fuzzy_key r)⟩])) ∧
    (cfg.sim (build_fuzzy_key r) k < cfg.weak →
      (step cfg st (lib, r)).clusters.map Cluster.members =
        st.clusters.map Cluster.members ++
          [[⟨lib, get_local_id r, r, extract_strong_key cfg.validate r,
            some (build_fuzzy_key r)⟩]]) := by
  have hscan : fuzzyScan cfg.sim (build_fuzzy_key r) st.fuzzy_index 0 none =
      (cfg.sim (build_fuzzy_key r) k, some cid) := by
    rw [hidx]
    exact fuzzyScan_first_max cfg.sim (build_fuzzy_key r) k cid l1 l2 h1 h2 0 none hpos
  have hpick : pickCluster cfg st (extract_strong_key cfg.validate r)
      (some (build_fuzzy_key r)) =
      (if cfg.weak ≤ cfg.sim (build_fuzzy_key r) k then some cid else none) := by
    unfold pickCluster
    rw [hsl, huf, hso]
    simp [truthyOpt, hfk, hscan]
  have hstep : step cfg st (lib, r) =
      applyRecord cfg st lib r (extract_strong_key cfg.validate r)
        (some (build_fuzzy_key r)) := by
    unfold step
    rw [huf]
    simp
  refine ⟨hpick, fun hge => ?_, fun hlt => ?_⟩
  · have hpc : pickCluster cfg st (extract_strong_key cfg.validate r)
        (some (build_fuzzy_key r)) = some cid := by
      rw [hpick, if_pos hge]
    rw [hstep]
    unfold applyRecord
    simp only [hpc, Option.getD_some]
    rw [List.find?_map]
    have hcomp :
        ((fun c : Cluster => decide (c.id = cid)) ∘
          updateClusterWith cid
            ⟨lib, get_local_id r, r, extract_strong_key cfg.validate r,
              some (build_fuzzy_key r)⟩
            (extract_strong_key cfg.validate r) (some (build_fuzzy_key r))) =
          (fun c : Cluster => decide (c.id = cid)) := by
      funext c
      simp [updateClusterWith_id]
    rw [hcomp]
    cases hf : st.clusters.find? (fun c => decide (c.id = cid)) with
    | none => rfl
    | some c =>
      have hcid : c.id = cid := by
        have := List.find?_some hf
        simpa using this
      simp only [Option.map_some']
      unfold updateClusterWith
      rw [if_pos hcid]
  · have hpc : pickCluster cfg st (extract_strong_key cfg.validate r)
        (some (build_fuzzy_key r)) = none := by
      rw [hpick, if_neg (by omega)]
    rw [hstep]
    unfold applyRecord
    simp only [hpc, Option.getD_none]
    rw [List.map_append, List.map_append, List.map_map, List.map_map]
    congr 1
    · apply List.map_congr_left
      intro c hc
      have hne : c.id ≠ st.next_id := Nat.ne_of_lt (hwf c hc)
      simp only [Function.comp_apply]
      unfold updateClusterWith
      rw [if_neg hne]
    · simp only [List.map_cons, List.map_nil, Function.comp_apply]
      unfold updateClusterWith
      rw [if_pos rfl]
      rfl

/-- Concrete scorer for the C3 witness: two index keys tie at exactly the
threshold. -/
def simC3 : String → String → Nat := fun a b =>
  if a = "ccc" && b = "k1" then 92
  else if a = "ccc" && b = "k2" then 92
  else 0

def cfgC3 : Cfg := ⟨true, 92, true, false, simC3⟩

def recC3 : MRecord := [MField.datafield "245" " " " " [("a", "ccc")]]

def stC3 : BCState :=
  ⟨[⟨1, [], [], ["k1"]⟩, ⟨2, [], [], ["k2"]⟩], [], [("k1", 1), ("k2", 2)], 3⟩

/-- C3 witness: with both index keys scoring exactly the threshold 92,
the record joins the cluster of the *first* key (`k1` → cluster 1), not
the equally-scoring later one. -/
theorem fuzzy_pass_first_max_threshold_witness :
    pickCluster cfgC3 stC3 (extract_strong_key cfgC3.validate recC3)
        (some (build_fuzzy_key recC3)) = some 1 ∧
      ((step cfgC3 stC3 ("L", recC3)).clusters.find? (fun c => c.id = 1)).map
          Cluster.members =
        some [⟨"L", "", recC3, none, some "ccc"⟩] := by
  obtain ⟨hp, ha, -⟩ :=
    fuzzy_pass_first_max_threshold cfgC3 stC3 "L" recC3 rfl rfl (by decide)
      (by decide) "k1" 1 [] [("k2", 2)] rfl (by decide) (by decide) (by decide)
      (by decide)
  refine ⟨hp.trans (by decide), (ha (by decide)).trans (by decide)⟩

/-! ### C2 — index-growth chaining in `build_clusters` -/

/-- C2: three records A, B, C in stream order, none with a strong key;
A–B similar at or above the threshold, C below threshold against A's key
but at or above threshold against B's key.  C still lands in A/B's
cluster, because step 7 added B's own fuzzy key to the index when B
joined. -/
theorem build_clusters_chaining
    (cfg : Cfg) (la lb lc : String) (A B C : MRecord)
    (huf : cfg.use_fuzzy = true) (hso : cfg.strong_only = false)
    (hskA : extract_strong_key cfg.validate A = none)
    (hskB : extract_strong_key cfg.validate B = none)
    (hskC : extract_strong_key cfg.validate C = none)
    (hfa : build_fuzzy_key A ≠ "") (hfb : build_fuzzy_key B ≠ "")
    (hfc : build_fuzzy_key C ≠ "")
    (hBA : cfg.weak ≤ cfg.sim (build_fuzzy_key B) (build_fuzzy_key A))
    (hCA : cfg.sim (build_fuzzy_key C) (build_fuzzy_key A) < cfg.weak)
    (hCB : cfg.weak ≤ cfg.sim (build_fuzzy_key C) (build_fuzzy_key B)) :
    (build_clusters cfg [(la, [A]), (lb, [B]), (lc, [C])]).clusters.map
        Cluster.members =
      [[⟨la, get_local_id A, A, none, some (build_fuzzy_key A)⟩,
        ⟨lb, get_local_id B, B, none, some (build_fuzzy_key B)⟩,
        ⟨lc, get_local_id C, C, none, some (build_fuzzy_key C)⟩]] := by
  have hw0 : 0 < cfg.weak := Nat.lt_of_le_of_lt (Nat.zero_le _) hCA
  have hBApos : 0 < cfg.sim (build_fuzzy_key B) (build_fuzzy_key A) :=
    Nat.lt_of_lt_of_le hw0 hBA
  have hab : build_fuzzy_key A ≠ build_fuzzy_key B := by
    intro h
    rw [h] at hCA
    exact absurd hCB (not_le.mpr hCA)
  have e0 : build_clusters cfg [(la, [A]), (lb, [B]), (lc, [C])] =
      step cfg (step cfg (step cfg initState (la, A)) (lb, B)) (lc, C) := rfl
  -- step A: empty fuzzy index, no strong key → new cluster 1
  have hpickA : pickCluster cfg (⟨[], [], [], 1⟩ : BCState) none
      (some (build_fuzzy_key A)) = none := by
    unfold pickCluster strongLookup
    simp [fuzzyScan]
  have hA : step cfg initState (la, A) =
      ⟨[⟨1, [⟨la, get_local_id A, A, none, some (build_fuzzy_key A)⟩], [],
          [build_fuzzy_key A]⟩], [], [(build_fuzzy_key A, 1)], 2⟩ := by
    simp [step, applyRecord, huf, hskA, hpickA, initState, updateClusterWith,
      idxUpdate, addKey, truthyOpt, hfa, lookupIdx]
  -- step B: B's key matches A's key at/above threshold → joins cluster 1
  have hscanB : fuzzyScan cfg.sim (build_fuzzy_key B)
      [(build_fuzzy_key A, 1)] 0 none =
      (cfg.sim (build_fuzzy_key B) (build_fuzzy_key A), some 1) := by
    have := fuzzyScan_first_max cfg.sim (build_fuzzy_key B) (build_fuzzy_key A)
      1 [] [] (by intro e he; cases he) (by intro e he; cases he) 0 none hBApos
    simpa using this
  have hpickB : pickCluster cfg
      (⟨[⟨1, [⟨la, get_local_id A, A, none, some (build_fuzzy_key A)⟩], [],
          [build_fuzzy_key A]⟩], [], [(build_fuzzy_key A, 1)], 2⟩ : BCState)
      none (some (build_fuzzy_key B)) = some 1 := by
    unfold pickCluster strongLookup
    rw [huf, hso]
    simp [truthyOpt, hfb, hscanB, hBA]
  have hB : step cfg
      (⟨[⟨1, [⟨la, get_local_id A, A, none, some (build_fuzzy_key A)⟩], [],
          [build_fuzzy_key A]⟩], [], [(build_fuzzy_key A, 1)], 2⟩ : BCState)
      (lb, B) =
      ⟨[⟨1, [⟨la, get_local_id A, A, none, some (build_fuzzy_key A)⟩,
             ⟨lb, get_local_id B, B, none, some (build_fuzzy_key B)⟩], [],
          [build_fuzzy_key A, build_fuzzy_key B]⟩], [],
        [(build_fuzzy_key A, 1), (build_fuzzy_key B, 1)], 2⟩ := by
    simp [step, applyRecord, huf, hskB, hpickB, updateClusterWith, idxUpdate,
      addKey, truthyOpt, hfb, lookupIdx, hab, Ne.symm hab]
  -- step C: C's key matches B's (the scan maximum) at/above threshold
  have hCBpos : 0 < cfg.sim (build_fuzzy_key C) (build_fuzzy_key B) :=
    Nat.lt_of_lt_of_le hw0 hCB
  have hscanC : fuzzyScan cfg.sim (build_fuzzy_key C)
      [(build_fuzzy_key A, 1), (build_fuzzy_key B, 1)] 0 none =
      (cfg.sim (build_fuzzy_key C) (build_fuzzy_key B), some 1) := by
    have := fuzzyScan_first_max cfg.sim (build_fuzzy_key C) (build_fuzzy_key B)
      1 [(build_fuzzy_key A, 1)] []
      (by
        intro e he
        rcases List.mem_singleton.mp he with rfl
        exact Nat.lt_of_lt_of_le hCA hCB)
      (by intro e he; cases he) 0 none hCBpos
    simpa using this
  have hpickC : pickCluster cfg
      (⟨[⟨1, [⟨la, get_local_id A, A, none, some (build_fuzzy_key A)⟩,
             ⟨lb, get_local_id B, B, none, some (build_fuzzy_key B)⟩], [],
          [build_fuzzy_key A, build_fuzzy_key B]⟩], [],
        [(build_fuzzy_key A, 1), (build_fuzzy_key B, 1)], 2⟩ : BCState)
      none (some (build_fuzzy_key C)) = some 1 := by
    unfold pickCluster strongLookup
    rw [huf, hso]
    simp [truthyOpt, hfc, hscanC, hCB]
  rw [e0, hA, hB]
  simp [step, applyRecord, huf, hskC, hpickC, updateClusterWith, idxUpdate,
    addKey, truthyOpt, hfc, lookupIdx]

/-- Concrete scorer for the C2 witness: B scores 95 against A's key;
C scores only 10 against A's key but 93 against B's key. -/
def simC2 : String → String → Nat := fun a b =>
  if a = "bbb" && b = "aaa" then 95
  else if a = "ccc" && b = "aaa" then 10
  else if a = "ccc" && b = "bbb" then 93
  else 0

def cfgC2 : Cfg := ⟨true, 92, true, false, simC2⟩

def recA2 : MRecord := [MField.datafield "245" " " " " [("a", "aaa")]]

def recB2 : MRecord := [MField.datafield "245" " " " " [("a", "bbb")]]

def recC2 : MRecord := [MField.datafield "245" " " " " [("a", "ccc")]]

/-- C2 witness: with threshold 92, the three concrete records end up in
one cluster, in stream order. -/
theorem build_clusters_chaining_witness :
    (build_clusters cfgC2
        [("L1", [recA2]), ("L2", [recB2]), ("L3", [recC2])]).clusters.map
        Cluster.members =
      [[⟨"L1", "", recA2, none, some "aaa"⟩,
        ⟨"L2", "", recB2, none, some "bbb"⟩,
        ⟨"L3", "", recC2, none, some "ccc"⟩]] := by
  have h := build_clusters_chaining cfgC2 "L1" "L2" "L3" recA2 recB2 recC2
    rfl rfl (by decide) (by decide) (by decide) (by decide) (by decide)
    (by decide) (by decide) (by decide) (by decide)
  exact h.trans (by decide)

/-! ### C7 — keyless records become permanent singletons -/

/-- The cluster references held by an index (the values of the dict). -/
def idxValues (idx : List (String × Nat)) : List Nat := idx.map (·.2)

/-- The cluster object a cluster id refers to (ids are unique along any
reachable state, cf. `stateWF`). -/
def findCluster (st : BCState) (i : Nat) : Option Cluster :=
  st.clusters.find? (fun c => c.id = i)

/-- Reachable-state well-formedness: every cluster id and every index
value is below the `next_id` counter. -/
def stateWF (st : BCState) : Prop :=
  (∀ c ∈ st.clusters, c.id < st.next_id) ∧
  (∀ v ∈ idxValues st.strong_index, v < st.next_id) ∧
  (∀ v ∈ idxValues st.fuzzy_index, v < st.next_id)

/-- Cluster `i` is an orphan singleton: it holds exactly `sr0`, no key of
any index refers to it, and its key sets are empty. -/
def singletonInv (i : Nat) (sr0 : SourceRecord) (st : BCState) : Prop :=
  i < st.next_id ∧
  (∀ v ∈ idxValues st.strong_index, v ≠ i) ∧
  (∀ v ∈ idxValues st.fuzzy_index, v ≠ i) ∧
  findCluster st i = some ⟨i, [sr0], [], []⟩

theorem lookupIdx_mem_values :
    ∀ (idx : List (String × Nat)) (k : String) (v : Nat),
      lookupIdx idx k = some v → v ∈ idxValues idx := by
  intro idx k v
  induction idx with
  | nil => intro h; cases h
  | cons e rest ih =>
    obtain ⟨k1, v1⟩ := e
    intro h
    rw [lookupIdx] at h
    by_cases he : k1 = k
    · rw [if_pos he] at h
      injection h with h
      exact h ▸ List.mem_cons_self _ _
    · rw [if_neg he] at h
      exact List.mem_cons_of_mem _ (ih h)

theorem fuzzyScan_snd_mem (sim : String → String → Nat) (fk : String) :
    ∀ (l : List (String × Nat)) (b : Nat) (bc : Option Nat) (c : Nat),
      (fuzzyScan sim fk l b bc).2 = some c → bc = some c ∨ c ∈ idxValues l := by
  intro l
  induction l with
  | nil => intro b bc c h; exact Or.inl h
  | cons e rest ih =>
    obtain ⟨k1, c1⟩ := e
    intro b bc c h
    simp only [fuzzyScan] at h
    by_cases hgt : sim fk k1 > b
    · rw [if_pos hgt] at h
      rcases ih _ _ _ h with h' | h'
      · injection h' with h'
        exact Or.inr (h' ▸ List.mem_cons_self _ _)
      · exact Or.inr (List.mem_cons_of_mem _ h')
    · rw [if_neg hgt] at h
      rcases ih _ _ _ h with h' | h'
      · exact Or.inl h'
      · exact Or.inr (List.mem_cons_of_mem _ h')

theorem strongLookup_mem (idx : List (String × Nat)) (sk : Option String)
    (c : Nat) (h : strongLookup idx sk = some c) : c ∈ idxValues idx := by
  unfold strongLookup at h
  split at h
  · split at h
    · exact lookupIdx_mem_values _ _ _ h
    · cases h
  · cases h

theorem pickCluster_mem (cfg : Cfg) (st : BCState) (sk fk : Option String)
    (cid : Nat) (h : pickCluster cfg st sk fk = some cid) :
    cid ∈ idxValues st.strong_index ∨ cid ∈ idxValues st.fuzzy_index := by
  unfold pickCluster at h
  split at h
  next c heq =>
    injection h with h
    subst h
    exact Or.inl (strongLookup_mem _ _ _ heq)
  next heq =>
    split at h
    · have h2 : (fuzzyScan cfg.sim (fk.getD "") st.fuzzy_index 0 none).2 =
          some cid := by
        revert h
        generalize fuzzyScan cfg.sim (fk.getD "") st.fuzzy_index 0 none = p
        obtain ⟨b, bc⟩ := p
        cases bc with
        | none => intro h; exact h
        | some c =>
          intro h
          have h' : (if cfg.weak ≤ b then some c else none) = some cid := h
          by_cases hw : cfg.weak ≤ b
          · rw [if_pos hw] at h'
            exact h'
          · rw [if_neg hw] at h'
            cases h'
      rcases fuzzyScan_snd_mem cfg.sim (fk.getD "") st.fuzzy_index 0 none
        cid h2 with h' | h'
      · cases h'
      · exact Or.inr h'
    · cases h

theorem idxValues_update (idx : List (String × Nat)) (k : String) (v0 : Nat) :
    ∀ v ∈ idxValues (idxUpdate idx k v0), v ∈ idxValues idx ∨ v = v0 := by
  intro v hv
  unfold idxUpdate at hv
  by_cases hs : (lookupIdx idx k).isSome
  · rw [if_pos hs] at hv
    unfold idxValues at hv
    rw [List.map_map] at hv
    rcases List.mem_map.mp hv with ⟨e, he, hev⟩
    simp only [Function.comp_apply] at hev
    by_cases hek : e.1 = k
    · rw [if_pos hek] at hev
      exact Or.inr hev.symm
    · rw [if_neg hek] at hev
      exact Or.inl (hev ▸ List.mem_map.mpr ⟨e, he, rfl⟩)
  · rw [if_neg hs] at hv
    unfold idxValues at hv
    rw [List.map_append] at hv
    rcases List.mem_append.mp hv with h | h
    · exact Or.inl h
    · rcases List.mem_singleton.mp h with rfl
      exact Or.inr rfl

/-- `applyRecord` when the record is assigned to an existing cluster. -/
theorem applyRecord_some (cfg : Cfg) (st : BCState) (lib : String)
    (r : MRecord) (sk fk : Option String) (cid : Nat)
    (h : pickCluster cfg st sk fk = some cid) :
    applyRecord cfg st lib r sk fk =
      ⟨st.clusters.map
          (updateClusterWith cid ⟨lib, get_local_id r, r, sk, fk⟩ sk fk),
        (if truthyOpt sk then idxUpdate st.strong_index (sk.getD "") cid
         else st.strong_index),
        (if truthyOpt fk then idxUpdate st.fuzzy_index (fk.getD "") cid
         else st.fuzzy_index),
        st.next_id⟩ := by
  unfold applyRecord
  rw [h]
  rfl

/-- `applyRecord` when a fresh cluster is created. -/
theorem applyRecord_none (cfg : Cfg) (st : BCState) (lib : String)
    (r : MRecord) (sk fk : Option String)
    (h : pickCluster cfg st sk fk = none) :
    applyRecord cfg st lib r sk fk =
      ⟨(st.clusters ++ [(⟨st.next_id, [], [], []⟩ : Cluster)]).map
          (updateClusterWith st.next_id ⟨lib, get_local_id r, r, sk, fk⟩ sk fk),
        (if truthyOpt sk then idxUpdate st.strong_index (sk.getD "") st.next_id
         else st.strong_index),
        (if truthyOpt fk then idxUpdate st.fuzzy_index (fk.getD "") st.next_id
         else st.fuzzy_index),
        st.next_id + 1⟩ := by
  unfold applyRecord
  rw [h]
  rfl

theorem stateWF_init : stateWF initState := by
  refine ⟨?_, ?_, ?_⟩ <;> intro x hx <;> cases hx

theorem findCluster_map_update (cls : List Cluster) (cid : Nat)
    (sr : SourceRecord) (sk fk : Option String) (i : Nat) :
    (cls.map (updateClusterWith cid sr sk fk)).find? (fun c => c.id = i) =
      (cls.find? (fun c => c.id = i)).map (updateClusterWith cid sr sk fk) := by
  rw [List.find?_map]
  have hcomp : ((fun c : Cluster => decide (c.id = i)) ∘
      updateClusterWith cid sr sk fk) = (fun c : Cluster => decide (c.id = i)) := by
    funext c
    simp [updateClusterWith_id]
  rw [hcomp]

theorem applyRecord_WF (cfg : Cfg) (st : BCState) (lib : String) (r : MRecord)
    (sk fk : Option String) (hwf : stateWF st) :
    stateWF (applyRecord cfg st lib r sk fk) := by
  cases hpc : pickCluster cfg st sk fk with
  | some cid =>
    rw [applyRecord_some cfg st lib r sk fk cid hpc]
    unfold stateWF
    dsimp only
    have hcid : cid < st.next_id := by
      rcases pickCluster_mem cfg st sk fk cid hpc with h | h
      · exact hwf.2.1 cid h
      · exact hwf.2.2 cid h
    refine ⟨?_, ?_, ?_⟩
    · intro c hc
      rcases List.mem_map.mp hc with ⟨c0, hc0, rfl⟩
      rw [updateClusterWith_id]
      exact hwf.1 c0 hc0
    · intro v hv
      split_ifs at hv with hts
      · rcases idxValues_update st.strong_index (sk.getD "") cid v hv with h | rfl
        · exact hwf.2.1 v h
        · exact hcid
      · exact hwf.2.1 v hv
    · intro v hv
      split_ifs at hv with hts
      · rcases idxValues_update st.fuzzy_index (fk.getD "") cid v hv with h | rfl
        · exact hwf.2.2 v h
        · exact hcid
      · exact hwf.2.2 v hv
  | none =>
    rw [applyRecord_none cfg st lib r sk fk hpc]
    unfold stateWF
    dsimp only
    refine ⟨?_, ?_, ?_⟩
    · intro c hc
      rcases List.mem_map.mp hc with ⟨c0, hc0, rfl⟩
      rw [updateClusterWith_id]
      rcases List.mem_append.mp hc0 with h | h
      · exact Nat.lt_succ_of_lt (hwf.1 c0 h)
      · rcases List.mem_singleton.mp h with rfl
        exact Nat.lt_succ_self _
    · intro v hv
      split_ifs at hv with hts
      · rcases idxValues_update st.strong_index (sk.getD "") st.next_id v hv with h | rfl
        · exact Nat.lt_succ_of_lt (hwf.2.1 v h)
        · exact Nat.lt_succ_self _
      · exact Nat.lt_succ_of_lt (hwf.2.1 v hv)
    · intro v hv
      split_ifs at hv with hts
      · rcases idxValues_update st.fuzzy_index (fk.getD "") st.next_id v hv with h | rfl
        · exact Nat.lt_succ_of_lt (hwf.2.2 v h)
        · exact Nat.lt_succ_self _
      · exact Nat.lt_succ_of_lt (hwf.2.2 v hv)

theorem applyRecord_inv (cfg : Cfg) (st : BCState) (lib : String) (r : MRecord)
    (sk fk : Option String) (i : Nat) (sr0 : SourceRecord)
    (hwf : stateWF st) (hinv : singletonInv i sr0 st) :
    singletonInv i sr0 (applyRecord cfg st lib r sk fk) := by
  obtain ⟨hi, hsv, hfv, hfind⟩ := hinv
  cases hpc : pickCluster cfg st sk fk with
  | some cid =>
    rw [applyRecord_some cfg st lib r sk fk cid hpc]
    unfold singletonInv
    dsimp only
    have hcidne : cid ≠ i := by
      rcases pickCluster_mem cfg st sk fk cid hpc with h | h
      · exact hsv cid h
      · exact hfv cid h
    refine ⟨hi, ?_, ?_, ?_⟩
    · intro v hv
      split_ifs at hv with hts
      · rcases idxValues_update st.strong_index (sk.getD "") cid v hv with h | rfl
        · exact hsv v h
        · exact hcidne
      · exact hsv v hv
    · intro v hv
      split_ifs at hv with hts
      · rcases idxValues_update st.fuzzy_index (fk.getD "") cid v hv with h | rfl
        · exact hfv v h
        · exact hcidne
      · exact hfv v hv
    · unfold findCluster at hfind ⊢
      rw [findCluster_map_update, hfind, Option.map_some']
      unfold updateClusterWith
      rw [if_neg (by simpa using Ne.symm hcidne)]
  | none =>
    have hne : i ≠ st.next_id := Nat.ne_of_lt hi
    rw [applyRecord_none cfg st lib r sk fk hpc]
    unfold singletonInv
    dsimp only
    refine ⟨Nat.lt_succ_of_lt hi, ?_, ?_, ?_⟩
    · intro v hv
      split_ifs at hv with hts
      · rcases idxValues_update st.strong_index (sk.getD "") st.next_id v hv with h | rfl
        · exact hsv v h
        · exact Ne.symm hne
      · exact hsv v hv
    · intro v hv
      split_ifs at hv with hts
      · rcases idxValues_update st.fuzzy_index (fk.getD "") st.next_id v hv with h | rfl
        · exact hfv v h
        · exact Ne.symm hne
      · exact hfv v hv
    · unfold findCluster at hfind ⊢
      rw [findCluster_map_update, List.find?_append, hfind, Option.or_some,
        Option.map_some']
      unfold updateClusterWith
      rw [if_neg (by simpa using hne)]

theorem step_WF (cfg : Cfg) (st : BCState) (item : String × MRecord)
    (hwf : stateWF st) : stateWF (step cfg st item) := by
  unfold step
  exact applyRecord_WF cfg st item.1 item.2 _ _ hwf

theorem step_inv (cfg : Cfg) (st : BCState) (item : String × MRecord)
    (i : Nat) (sr0 : SourceRecord) (hwf : stateWF st)
    (hinv : singletonInv i sr0 st) :
    singletonInv i sr0 (step cfg st item) := by
  unfold step
  exact applyRecord_inv cfg st item.1 item.2 _ _ i sr0 hwf hinv

theorem foldl_WF (cfg : Cfg) :
    ∀ (items : List (String × MRecord)) (st : BCState), stateWF st →
      stateWF (items.foldl (step cfg) st) := by
  intro items
  induction items with
  | nil => intro st h; exact h
  | cons it rest ih =>
    intro st h
    rw [List.foldl_cons]
    exact ih _ (step_WF cfg st it h)

theorem foldl_WF_inv (cfg : Cfg) (i : Nat) (sr0 : SourceRecord) :
    ∀ (items : List (String × MRecord)) (st : BCState), stateWF st →
      singletonInv i sr0 st →
      singletonInv i sr0 (items.foldl (step cfg) st) := by
  intro items
  induction items with
  | nil => intro st _ h; exact h
  | cons it rest ih =>
    intro st hwf hinv
    rw [List.foldl_cons]
    exact ih _ (step_WF cfg st it hwf) (step_inv cfg st it i sr0 hwf hinv)

/-- C7: a record with no usable author/title/year data and no valid
identifier gets an absent strong key and an empty-string fuzzy key, and —
wherever it occurs in the stream, whatever the configuration — ends up in
a freshly created cluster that holds exactly this record at the end of
the whole run: neither the empty fuzzy key nor the absent strong key is
ever indexed, so no later record can join. -/
theorem keyless_record_permanent_singleton
    (cfg : Cfg) (lib : String) (r0 : MRecord)
    (ha : extract_author r0 = "") (ht : extract_title r0 = "")
    (hy : extract_year r0 = "")
    (hsk : extract_strong_key cfg.validate r0 = none)
    (pre post : List (String × MRecord)) :
    build_fuzzy_key r0 = "" ∧
      findCluster (build_clusters_list cfg (pre ++ (lib, r0) :: post))
          (build_clusters_list cfg pre).next_id =
        some ⟨(build_clusters_list cfg pre).next_id,
          [⟨lib, get_local_id r0, r0, none,
            if cfg.use_fuzzy then some "" else none⟩], [], []⟩ := by
  have hfk : build_fuzzy_key r0 = "" := by
    unfold build_fuzzy_key
    rw [ha, ht, hy]
    decide
  refine ⟨hfk, ?_⟩
  have hwfPre : stateWF (build_clusters_list cfg pre) := by
    unfold build_clusters_list
    exact foldl_WF cfg pre initState stateWF_init
  have hsplit : build_clusters_list cfg (pre ++ (lib, r0) :: post) =
      post.foldl (step cfg) (step cfg (build_clusters_list cfg pre) (lib, r0)) := by
    unfold build_clusters_list
    rw [List.foldl_append, List.foldl_cons]
  rw [hsplit]
  have htr : truthyOpt (if cfg.use_fuzzy then some "" else none) = false := by
    cases hu : cfg.use_fuzzy <;> simp [truthyOpt]
  have hpc : pickCluster cfg (build_clusters_list cfg pre) none
      (if cfg.use_fuzzy then some "" else none) = none := by
    unfold pickCluster strongLookup
    simp [htr]
  have hstep : step cfg (build_clusters_list cfg pre) (lib, r0) =
      applyRecord cfg (build_clusters_list cfg pre) lib r0 none
        (if cfg.use_fuzzy then some "" else none) := by
    unfold step
    simp only [hsk, hfk]
  have hwf' : stateWF (applyRecord cfg (build_clusters_list cfg pre) lib r0
      none (if cfg.use_fuzzy then some "" else none)) :=
    applyRecord_WF cfg _ lib r0 none _ hwfPre
  have hinv' : singletonInv (build_clusters_list cfg pre).next_id
      ⟨lib, get_local_id r0, r0, none, if cfg.use_fuzzy then some "" else none⟩
      (applyRecord cfg (build_clusters_list cfg pre) lib r0 none
        (if cfg.use_fuzzy then some "" else none)) := by
    rw [applyRecord_none cfg _ lib r0 none _ hpc]
    unfold singletonInv
    dsimp only
    refine ⟨Nat.lt_succ_self _, ?_, ?_, ?_⟩
    · intro v hv
      rw [show truthyOpt (none : Option String) = false from rfl] at hv
      simp only [Bool.false_eq_true, if_false] at hv
      exact Nat.ne_of_lt (hwfPre.2.1 v hv)
    · intro v hv
      rw [htr] at hv
      simp only [Bool.false_eq_true, if_false] at hv
      exact Nat.ne_of_lt (hwfPre.2.2 v hv)
    · unfold findCluster
      dsimp only
      rw [findCluster_map_update, List.find?_append]
      have hnone : (build_clusters_list cfg pre).clusters.find?
          (fun c => c.id = (build_clusters_list cfg pre).next_id) = none := by
        rw [List.find?_eq_none]
        intro c hc
        simp only [decide_eq_true_eq]
        exact Nat.ne_of_lt (hwfPre.1 c hc)
      rw [hnone, Option.none_or]
      rw [List.find?_cons_of_pos _ (by simp)]
      simp only [Option.map_some']
      unfold updateClusterWith
      rw [if_pos rfl]
      rw [show truthyOpt (none : Option String) = false from rfl, htr]
      simp
  rw [hstep]
  exact (foldl_WF_inv cfg _ _ post _ hwf' hinv').2.2.2

/-- C7 witness: an empty record sandwiched between two ordinary records
stays a singleton cluster to the end of the run. -/
theorem keyless_record_permanent_singleton_witness :
    build_fuzzy_key ([] : MRecord) = "" ∧
      findCluster
          (build_clusters_list cfgC2
            ([("L1", recA2)] ++ ("LX", ([] : MRecord)) :: [("L2", recB2)]))
          (build_clusters_list cfgC2 [("L1", recA2)]).next_id =
        some ⟨(build_clusters_list cfgC2 [("L1", recA2)]).next_id,
          [⟨"LX", get_local_id ([] : MRecord), ([] : MRecord), none,
            if cfgC2.use_fuzzy then some "" else none⟩], [], []⟩ :=
  keyless_record_permanent_singleton cfgC2 "LX" [] (by decide) (by decide)
    (by decide) (by decide) [("L1", recA2)] [("L2", recB2)]

/-! ### C6 — determinism of the engine -/

/-- C6: the full observable output (merged records, CSV rows, JSON
manifest) is a pure function of the ordered input and the configuration:
two runs on equal inputs are equal.  The only run-to-run varying data
structure in the source is Python's `set` (its iteration order is not
reproducible across processes); the second conjunct shows the engine only
ever consumes those sets through `sorted(...)`, whose result — proved
here for `sortStrings`, the sorted view used by `merge_cluster`,
`report_row` and `json_entry` — depends only on the set of elements, not
on any iteration order of its representation. -/
theorem engine_deterministic :
    (∀ (cfg1 cfg2 : Cfg) (mc1 mc2 : MergeCfg)
        (s1 s2 : List (String × List MRecord)),
        cfg1 = cfg2 → mc1 = mc2 → s1 = s2 →
        runEngine cfg1 mc1 s1 = runEngine cfg2 mc2 s2) ∧
      (∀ ks ks' : List String, ks.Perm ks' → sortStrings ks = sortStrings ks') := by
  constructor
  · intro cfg1 cfg2 mc1 mc2 s1 s2 h1 h2 h3
    subst h1
    subst h2
    subst h3
    rfl
  · intro ks ks' hperm
    have hs1 := List.sorted_insertionSort (fun a b : String => a ≤ b) ks
    have hs2 := List.sorted_insertionSort (fun a b : String => a ≤ b) ks'
    have hp : (sortStrings ks).Perm (sortStrings ks') :=
      ((List.perm_insertionSort _ ks).trans hperm).trans
        (List.perm_insertionSort _ ks').symm
    exact List.eq_of_perm_of_sorted hp hs1 hs2

def mergeCfgW : MergeCfg := ⟨[], ["245", "260", "264"], "035", "910", "948", false⟩

/-- C6 witness. -/
theorem engine_deterministic_witness :
    runEngine cfgC2 mergeCfgW [("L1", [recA2])] =
        runEngine cfgC2 mergeCfgW [("L1", [recA2])] ∧
      sortStrings ["b", "a"] = sortStrings ["a", "b"] := by
  obtain ⟨h1, h2⟩ := engine_deterministic
  exact ⟨h1 cfgC2 cfgC2 mergeCfgW mergeCfgW _ _ rfl rfl rfl,
    h2 ["b", "a"] ["a", "b"] (by decide)⟩

end Colectivo
